import Mathlib

/-!
Verification development for the `gitgraph` program (`src/main.go`).

The program keeps a JSON-persisted cache mapping a repository URL to a
display name and a list of commit timestamps, fetches history only for
entries whose cached commit list is empty, aggregates commits into
fixed-width weekly buckets, and renders one chart per repository.

Shallow embedding conventions:
* A `time.Time` instant is modelled by its Unix epoch seconds as an `Int`
  (the spec states all bucket arithmetic in the epoch-seconds domain).
* The Go map `FileType = map[string]*chart` is modelled as an association
  list; Go maps have unique keys, so theorems that need it take a
  `Nodup` hypothesis on the key list.
* Filesystem and network effects are modelled by explicit inputs: the
  state of the cache file (`FileState`) and the history provider
  (`fetch : String → Except String (List Int)`).
* Go `int64` division truncates toward zero, i.e. `Int.tdiv`.
* `float64` axis values are modelled as rationals; Go `int(x)` conversion
  truncates toward zero (`ratTrunc`).
-/

/-- `type chart struct { Name string; Commits []time.Time }` -/
structure Chart where
  name : String
  commits : List Int
  deriving Repr, DecidableEq

/-- `type FileType map[string]*chart`, as an association list. -/
abbrev FileType := List (String × Chart)

/-- Go map indexing `store[key]`: first entry with the given key. -/
def FileType.find? (k : String) : FileType → Option Chart
  | [] => none
  | (k2, ch) :: rest => if k = k2 then some ch else FileType.find? k rest

/-- The merge loop in `FileType.Load` (`main.go:63-69`): for every entry of
the current configuration whose key appears in the decoded store, replace
that entry's `Commits` with the persisted value; all other entries (and the
entry's `Name`) are untouched. -/
def loadMerge : FileType → FileType → FileType
  | [], _ => []
  | (k, ch) :: rest, store =>
    (match FileType.find? k store with
     | none => (k, ch)
     | some v => (k, { ch with commits := v.commits })) :: loadMerge rest store

/-- State of the persisted cache file as seen by `os.Open` + `json.Decode`:
absent, unreadable (open error other than not-exist), or present with a
decode outcome. -/
inductive FileState where
  | absent
  | openErr (msg : String)
  | content (decoded : Except String FileType)

/-- `FileType.Load` (`main.go:47-71`): a missing file is not an error and
leaves the store unchanged; any other open error or a decode error is
returned before the merge loop runs (store unchanged); on success the merge
loop replaces the `Commits` of configured entries found in the snapshot.
Returns the resulting in-memory store and the error, if any. -/
def FileType.Load (ft : FileType) (fs : FileState) : FileType × Option String :=
  match fs with
  | .absent => (ft, none)
  | .openErr e => (ft, some e)
  | .content (.error e) => (ft, some e)
  | .content (.ok store) => (loadMerge ft store, none)

/-- The fetch loop of `run` (`main.go:107-135`): entries with a non-empty
`Commits` list are skipped; for the rest the history provider is invoked
(clone + log), appending all fetched timestamps, and any fetch error aborts
the loop. Returns the loop outcome together with the list of identifiers
for which the provider was invoked, in iteration order. -/
def fetchLoop (fetch : String → Except String (List Int)) :
    FileType → Except String FileType × List String
  | [] => (.ok [], [])
  | (u, ch) :: rest =>
    if ch.commits.length > 0 then
      match fetchLoop fetch rest with
      | (.ok rest2, inv) => (.ok ((u, ch) :: rest2), inv)
      | (.error e, inv) => (.error e, inv)
    else
      match fetch u with
      | .error e => (.error e, [u])
      | .ok ts =>
        match fetchLoop fetch rest with
        | (.ok rest2, inv) => (.ok ((u, { ch with commits := ch.commits ++ ts }) :: rest2), u :: inv)
        | (.error e, inv) => (.error e, u :: inv)

/-- Outcome of a successful `run`: the final store, the identifiers that
were freshly fetched, and whether `Save` was invoked. -/
structure RunResult where
  store : FileType
  fetched : List String
  saved : Bool
  deriving DecidableEq

/-- `run` (`main.go:101-150`): `Load`, then the fetch loop, then `Save`
exactly when `updated` is true, i.e. when at least one fetch happened.
The second component is the list of identifiers for which the history
provider was invoked, including on aborted runs. Rendering (`display`) has
no effect on the store and is modelled separately. -/
def run (ft : FileType) (fs : FileState) (fetch : String → Except String (List Int)) :
    Except String RunResult × List String :=
  match FileType.Load ft fs with
  | (_, some e) => (.error e, [])
  | (charts, none) =>
    match fetchLoop fetch charts with
    | (.error e, inv) => (.error e, inv)
    | (.ok charts2, inv) =>
      (.ok { store := charts2, fetched := inv, saved := !inv.isEmpty }, inv)

/-- `const GroupSize = 60 * 60 * 24 * 7` (`main.go:153`). -/
def GroupSize : Int := 60 * 60 * 24 * 7

/-- The bucket computation in `display` (`main.go:161-162`):
`a := dt.Unix() / GroupSize; b := a * GroupSize`. Go `int64` division
truncates toward zero, hence `Int.tdiv`. -/
def bucketKey (t : Int) : Int := (t.tdiv GroupSize) * GroupSize

/-- Modelled from the spec's words, for comparison with `bucketKey`: the
spec states the bucket key as `floor(epoch_seconds(t) / W) * W`. -/
def specBucketKey (t : Int) : Int := (t.fdiv GroupSize) * GroupSize

/-- The future filter in `display` (`main.go:158-160`): a commit timestamp
`dt` is kept unless `now.Before(dt)`, i.e. unless `now < dt`. -/
def keptCommits (now : Int) (commits : List Int) : List Int :=
  commits.filter fun dt => decide (¬ (now < dt))

/-- The count stored in the `agg` map for a bucket key (`main.go:163`):
the number of kept commits whose bucket key equals `b`. -/
def aggCount (now : Int) (commits : List Int) (b : Int) : Nat :=
  ((keptCommits now commits).map bucketKey).count b

/-- The sorted `data` slice of `display` (`main.go:154-180`): the entries
of the `agg` map (one per distinct bucket key of a kept commit, with its
count), sorted ascending by bucket key. Sorting the distinct keys and
pairing each with its count is equivalent to sorting the (key, count)
pairs by key, since the count is determined by the key. -/
def aggregate (now : Int) (commits : List Int) : List (Int × Nat) :=
  (List.insertionSort (· ≤ ·) ((keptCommits now commits).map bucketKey).dedup).map
    fun b => (b, aggCount now commits b)

/-- `maxY` of `display` (`main.go:165-176`): the maximum count over the
entries of `agg`, starting from zero. The Go loop visits the map entries in
unspecified order; `max` is order-insensitive, so we fold over the sorted
entries. -/
def maxY (now : Int) (commits : List Int) : Nat :=
  ((aggregate now commits).map Prod.snd).foldl max 0

/-- `plot.Tick`: a position on the time axis and a label (empty = no
visible marker). -/
structure Tick where
  value : ℚ
  label : String
  deriving Repr, DecidableEq

/-- Go `int(x)` conversion of a `float64`, truncation toward zero, on the
rational model of `float64`. -/
def ratTrunc (q : ℚ) : Int := q.num.tdiv q.den

/-- `int((max - min) / GroupSize)` (`main.go:184`). -/
def tickCount (lo hi : ℚ) : Int := ratTrunc ((hi - lo) / (GroupSize : ℚ))

/-- The `plot.TickerFunc` closure of `display` (`main.go:183-196`): a list
of `int((max-min)/GroupSize)` ticks, tick `i` at `min + GroupSize*i`,
labelled `"|"` exactly when `i % 13 == 0`. (`make` with a negative length
panics in Go; the model is for `tickCount ≥ 0`, and the claims only
concern `min ≤ max`.) -/
def ticker (lo hi : ℚ) : List Tick :=
  (List.range (tickCount lo hi).toNat).map fun i : ℕ =>
    { value := lo + (GroupSize : ℚ) * (i : ℚ), label := if i % 13 = 0 then "|" else "" }

/-- `cleaner` (`main.go:225-230`): the character substitution table of the
`strings.NewReplacer` (all patterns are single characters, so the replacer
is a character map). -/
def cleaner (c : Char) : Char :=
  if c = ' ' then '_'
  else if c = ':' then '-'
  else if c = '\\' then '-'
  else if c = '/' then '-'
  else c

/-- `cleanFilename` (`main.go:232-234`): apply the substitution table to
every character of the name. -/
def cleanFilename (name : String) : String := ⟨name.data.map cleaner⟩

/-! ## Helper lemmas -/

theorem find?_loadMerge (ft store : FileType) (k : String) :
    FileType.find? k (loadMerge ft store) =
      (FileType.find? k ft).map fun ch =>
        match FileType.find? k store with
        | none => ch
        | some v => { ch with commits := v.commits } := by
  induction ft with
  | nil => rfl
  | cons p rest ih =>
    obtain ⟨k2, ch⟩ := p
    by_cases h : k = k2
    · subst h
      cases hs : FileType.find? k store <;>
        simp [loadMerge, FileType.find?, hs]
    · cases hs : FileType.find? k2 store <;>
        simp [loadMerge, FileType.find?, h, hs, ih]

theorem loadMerge_keys (ft store : FileType) :
    (loadMerge ft store).map Prod.fst = ft.map Prod.fst := by
  induction ft with
  | nil => rfl
  | cons p rest ih =>
    obtain ⟨k, ch⟩ := p
    cases hs : FileType.find? k store <;> simp [loadMerge, hs, ih]

/-! ## C1: Load merge correctness -/

/-- C1: for every identifier present in both the current configuration and
the persisted snapshot, `Load` replaces that entry's commits with the
persisted value; identifiers present only in the snapshot or only in the
configuration are left untouched (the key list is unchanged — no deletion,
no fabrication — and an entry whose key is absent from the snapshot is
returned as is, so a configured entry that was empty stays empty). -/
theorem C1_load_merge (ft store : FileType) :
    ((loadMerge ft store).map Prod.fst = ft.map Prod.fst) ∧
    (∀ k ch v, FileType.find? k ft = some ch → FileType.find? k store = some v →
      FileType.find? k (loadMerge ft store) = some { ch with commits := v.commits }) ∧
    (∀ k ch, FileType.find? k ft = some ch → FileType.find? k store = none →
      FileType.find? k (loadMerge ft store) = some ch) := by
  refine ⟨loadMerge_keys ft store, ?_, ?_⟩
  · intro k ch v hft hstore
    rw [find?_loadMerge, hft]
    simp [hstore]
  · intro k ch hft hstore
    rw [find?_loadMerge, hft]
    simp [hstore]

/-- Witness for C1 on concrete stores: a key present in both sides gets the
persisted commits, and a key absent from the snapshot keeps its (empty)
commits. -/
theorem C1_load_merge_witness :
    FileType.find? "urlA"
        (loadMerge [("urlA", ⟨"A", []⟩), ("urlB", ⟨"B", []⟩)] [("urlA", ⟨"A", [1577836800]⟩)]) =
      some ⟨"A", [1577836800]⟩ ∧
    FileType.find? "urlB"
        (loadMerge [("urlA", ⟨"A", []⟩), ("urlB", ⟨"B", []⟩)] [("urlA", ⟨"A", [1577836800]⟩)]) =
      some ⟨"B", []⟩ :=
  ⟨(C1_load_merge [("urlA", ⟨"A", []⟩), ("urlB", ⟨"B", []⟩)] [("urlA", ⟨"A", [1577836800]⟩)]).2.1
      "urlA" ⟨"A", []⟩ ⟨"A", [1577836800]⟩ rfl rfl,
   (C1_load_merge [("urlA", ⟨"A", []⟩), ("urlB", ⟨"B", []⟩)] [("urlA", ⟨"A", [1577836800]⟩)]).2.2
      "urlB" ⟨"B", []⟩ rfl rfl⟩

/-! ## C10: Load never modifies the Name field -/

/-- C10: `Load` only ever assigns the `Commits` field; a configured entry's
`Name` survives the merge even when the snapshot stores a different name
under the same identifier. -/
theorem C10_load_preserves_name (ft store : FileType) (k : String) (ch : Chart)
    (h : FileType.find? k ft = some ch) :
    ∃ ch2, FileType.find? k (loadMerge ft store) = some ch2 ∧ ch2.name = ch.name := by
  rw [find?_loadMerge, h]
  cases hs : FileType.find? k store with
  | none => exact ⟨ch, by simp, rfl⟩
  | some v => exact ⟨{ ch with commits := v.commits }, by simp, rfl⟩

/-- Witness for C10: the snapshot stores a different display name, the
merged entry keeps the configured one. -/
theorem C10_load_preserves_name_witness :
    ∃ ch2, FileType.find? "u" (loadMerge [("u", ⟨"Configured", []⟩)] [("u", ⟨"Persisted", [7]⟩)]) =
      some ch2 ∧ ch2.name = (⟨"Configured", []⟩ : Chart).name :=
  C10_load_preserves_name [("u", ⟨"Configured", []⟩)] [("u", ⟨"Persisted", [7]⟩)] "u"
    ⟨"Configured", []⟩ rfl

/-! ## C3: bucket alignment (corrected: truncated, not floor, division) -/

/-- C3 counterexample: the claim states the bucket key is
`floor(epoch_seconds(t) / W) * W` for every timestamp, including ones
before the Unix epoch. Go integer division truncates toward zero, so at
`t = -1` the code produces bucket `0` while the floor formula gives
`-604800`. -/
theorem C3_counterexample :
    bucketKey (-1) = 0 ∧ specBucketKey (-1) = -604800 ∧
      bucketKey (-1) ≠ specBucketKey (-1) := by
  refine ⟨by decide, by decide, by decide⟩

/-- C3 (amended): the bucket key is `trunc(epoch_seconds(t) / W) * W`
(division truncated toward zero); any two timestamps with equal truncated
quotient map to the identical bucket start; every bucket start is an exact
multiple of `W`; and for timestamps at or after the Unix epoch the
truncated form agrees with the claim's floor form. -/
theorem C3_bucket_alignment (t t1 t2 : Int) :
    bucketKey t = (t.tdiv GroupSize) * GroupSize ∧
    (t1.tdiv GroupSize = t2.tdiv GroupSize → bucketKey t1 = bucketKey t2) ∧
    GroupSize ∣ bucketKey t ∧
    (0 ≤ t → bucketKey t = specBucketKey t) := by
  refine ⟨rfl, fun h => by rw [bucketKey, bucketKey, h], Dvd.intro _ (mul_comm _ _), fun ht => ?_⟩
  rw [bucketKey, specBucketKey, Int.tdiv_eq_ediv ht (by decide), Int.fdiv_eq_ediv _ (by decide)]

/-- Witness for C3 at concrete timestamps: `86400` and `500000` share a
truncated quotient and hence a bucket, and at `86400 ≥ 0` the truncated
and floor forms agree. -/
theorem C3_bucket_alignment_witness :
    bucketKey 86400 = bucketKey 500000 ∧ bucketKey 86400 = specBucketKey 86400 :=
  ⟨(C3_bucket_alignment 0 86400 500000).2.1 (by decide),
   (C3_bucket_alignment 86400 0 0).2.2.2 (by decide)⟩

/-! ## C7: filename sanitizer (corrected: `": "` maps to `"-_"`) -/

/-- C7 counterexample: the claim says `"DDE Session Shell: v1/2"`
sanitizes to `"DDE_Session_Shell--v1-2"`, but the colon is followed by a
space, which the table maps to `_`, not `-`. -/
theorem C7_counterexample :
    cleanFilename "DDE Session Shell: v1/2" ≠ "DDE_Session_Shell--v1-2" := by decide

/-- C7 (amended): under the fixed substitution table (space→`_`, `:`→`-`,
`\`→`-`, `/`→`-`, all other characters unchanged), the display name
`"DDE Session Shell: v1/2"` sanitizes to `"DDE_Session_Shell-_v1-2"`. -/
theorem C7_sanitizer :
    cleanFilename "DDE Session Shell: v1/2" = "DDE_Session_Shell-_v1-2" ∧
    cleaner ' ' = '_' ∧ cleaner ':' = '-' ∧ cleaner '\\' = '-' ∧ cleaner '/' = '-' ∧
    ∀ c : Char, c ∈ [' ', ':', '\\', '/'] ∨ cleaner c = c := by
  refine ⟨by decide, rfl, rfl, rfl, rfl, fun c => ?_⟩
  by_cases h1 : c = ' '
  · exact Or.inl (by simp [h1])
  by_cases h2 : c = ':'
  · exact Or.inl (by simp [h2])
  by_cases h3 : c = '\\'
  · exact Or.inl (by simp [h3])
  by_cases h4 : c = '/'
  · exact Or.inl (by simp [h4])
  exact Or.inr (by simp [cleaner, h1, h2, h3, h4])

/-! ## Fetch loop lemmas -/

theorem mem_fetchLoop_inv (fetch : String → Except String (List Int)) (l : FileType)
    (k : String) (hk : k ∈ (fetchLoop fetch l).2) :
    ∃ ch, (k, ch) ∈ l ∧ ch.commits = [] := by
  induction l with
  | nil => simp [fetchLoop] at hk
  | cons p rest ih =>
    obtain ⟨u, ch⟩ := p
    rcases hr : fetchLoop fetch rest with ⟨res, inv⟩
    by_cases h : ch.commits.length > 0
    · have hk2 : k ∈ inv := by
        cases res <;> simpa [fetchLoop, h, hr] using hk
      obtain ⟨ch2, hmem, hempty⟩ := ih (by rw [hr]; exact hk2)
      exact ⟨ch2, List.mem_cons_of_mem _ hmem, hempty⟩
    · have hch : ch.commits = [] := by
        cases hc : ch.commits with
        | nil => rfl
        | cons a as => exact absurd (by simp [hc]) h
      cases hf : fetch u with
      | error e =>
        have : k = u := by simpa [fetchLoop, h, hf] using hk
        exact ⟨ch, by simp [this], hch⟩
      | ok ts =>
        have hk2 : k = u ∨ k ∈ inv := by
          cases res <;> simpa [fetchLoop, h, hf, hr] using hk
        rcases hk2 with rfl | hk2
        · exact ⟨ch, by simp, hch⟩
        · obtain ⟨ch2, hmem, hempty⟩ := ih (by rw [hr]; exact hk2)
          exact ⟨ch2, List.mem_cons_of_mem _ hmem, hempty⟩

theorem fetchLoop_ok_inv (fetch : String → Except String (List Int)) (l : FileType) :
    ∀ l2 inv, fetchLoop fetch l = (.ok l2, inv) →
      inv = (l.filter fun p => p.2.commits.isEmpty).map Prod.fst := by
  induction l with
  | nil =>
    intro l2 inv h
    simp [fetchLoop] at h
    simp [h.2.symm]
  | cons p rest ih =>
    intro l2 inv h
    obtain ⟨u, ch⟩ := p
    rcases hr : fetchLoop fetch rest with ⟨res, inv2⟩
    by_cases hlen : ch.commits.length > 0
    · have hemp : ch.commits.isEmpty = false := by
        cases hc : ch.commits with
        | nil => simp [hc] at hlen
        | cons a as => simp [hc]
      cases res with
      | ok rest2 =>
        simp only [fetchLoop, if_pos hlen, hr] at h
        simp only [Prod.mk.injEq] at h
        rw [List.filter_cons, if_neg (by simp [hemp]), ← h.2]
        exact ih rest2 inv2 (by rw [hr])
      | error e =>
        simp only [fetchLoop, if_pos hlen, hr] at h
        simp at h
    · have hemp : ch.commits.isEmpty = true := by
        cases hc : ch.commits with
        | nil => simp
        | cons a as => exact absurd (by simp [hc]) hlen
      cases hf : fetch u with
      | error e =>
        simp only [fetchLoop, if_neg hlen, hf] at h
        simp at h
      | ok ts =>
        cases res with
        | ok rest2 =>
          simp only [fetchLoop, if_neg hlen, hf, hr] at h
          simp only [Prod.mk.injEq] at h
          rw [List.filter_cons, if_pos (by simp [hemp]), List.map_cons, ← h.2]
          rw [ih rest2 inv2 (by rw [hr])]
        | error e =>
          simp only [fetchLoop, if_neg hlen, hf, hr] at h
          simp at h

theorem find?_eq_of_mem (l : FileType) (k : String) (ch : Chart)
    (hnd : (l.map Prod.fst).Nodup) (hmem : (k, ch) ∈ l) :
    FileType.find? k l = some ch := by
  induction l with
  | nil => simp at hmem
  | cons p rest ih =>
    obtain ⟨k2, ch2⟩ := p
    rw [List.map_cons] at hnd
    have hnd2 := List.nodup_cons.mp hnd
    rcases List.mem_cons.mp hmem with heq | hmem2
    · cases heq
      simp [FileType.find?]
    · have hne : k ≠ k2 := by
        rintro rfl
        exact hnd2.1 (List.mem_map.mpr ⟨(k, ch), hmem2, rfl⟩)
      simpa [FileType.find?, hne] using ih hnd2.2 hmem2

/-! ## C9: Load error handling -/

/-- C9: a missing cache file is not an error and leaves every configured
entry unchanged (so still empty); an open error or a decode failure is
returned as an error with the in-memory entries unchanged, and such an
error aborts the run before any fetch is attempted (the provider
invocation trace is empty). -/
theorem C9_load_error_handling (ft : FileType) (fetch : String → Except String (List Int)) :
    (FileType.Load ft .absent = (ft, none)) ∧
    (∀ e, FileType.Load ft (.openErr e) = (ft, some e)) ∧
    (∀ e, FileType.Load ft (.content (.error e)) = (ft, some e)) ∧
    (∀ fs e, (FileType.Load ft fs).2 = some e → run ft fs fetch = (.error e, [])) := by
  refine ⟨rfl, fun e => rfl, fun e => rfl, fun fs e h => ?_⟩
  rcases hL : FileType.Load ft fs with ⟨st, err⟩
  rw [hL] at h
  cases h
  simp [run, hL]

/-- Witness for C9: a decode failure surfaces as the run's error with no
provider invocation. -/
theorem C9_load_error_handling_witness :
    run [("u", ⟨"U", []⟩)] (.content (.error "bad json")) (fun _ => .ok [3]) =
      (.error "bad json", []) :=
  (C9_load_error_handling [("u", ⟨"U", []⟩)] (fun _ => .ok [3])).2.2.2
    (.content (.error "bad json")) "bad json" rfl

/-! ## C2: fetch-once -/

/-- C2: an identifier whose commit list is non-empty after `Load` is never
passed to the history provider during that run — the provider invocation
trace of `run` (which also records fetch attempts of aborted runs) does
not contain it; only identifiers with an empty commit list are fetched. -/
theorem C2_fetch_once (ft : FileType) (fs : FileState)
    (fetch : String → Except String (List Int)) (charts : FileType)
    (hload : FileType.Load ft fs = (charts, none))
    (hnd : (charts.map Prod.fst).Nodup)
    (k : String) (ch : Chart) (hfind : FileType.find? k charts = some ch)
    (hne : ch.commits ≠ []) :
    k ∉ (run ft fs fetch).2 := by
  intro hk
  have htrace : (run ft fs fetch).2 = (fetchLoop fetch charts).2 := by
    rcases hfl : fetchLoop fetch charts with ⟨res, inv⟩
    cases res <;> simp [run, hload, hfl]
  rw [htrace] at hk
  obtain ⟨ch2, hmem, hempty⟩ := mem_fetchLoop_inv fetch charts k hk
  have hfind2 := find?_eq_of_mem charts k ch2 hnd hmem
  rw [hfind] at hfind2
  cases hfind2
  exact hne hempty

/-- Witness for C2: a fully cached configuration leads to an empty
invocation trace, even with a provider that would succeed. -/
theorem C2_fetch_once_witness :
    "urlA" ∉ (run [("urlA", ⟨"A", [1577836800]⟩)] .absent (fun _ => .ok [])).2 :=
  C2_fetch_once [("urlA", ⟨"A", [1577836800]⟩)] .absent (fun _ => .ok [])
    [("urlA", ⟨"A", [1577836800]⟩)] rfl (by simp) "urlA" ⟨"A", [1577836800]⟩ rfl (by simp)

/-! ## C8: Save exactly when a fetch happened -/

/-- C8: on a completed run, `Save` is invoked if and only if some fetched
identifier exists, which happens exactly when some entry of the loaded
store had an empty commit list; in particular when every configured entry
is already cached the file is not rewritten. -/
theorem C8_save_iff_fetch (ft : FileType) (fs : FileState)
    (fetch : String → Except String (List Int)) (r : RunResult) (inv : List String)
    (hrun : run ft fs fetch = (.ok r, inv)) :
    (r.saved = true ↔ r.fetched ≠ []) ∧
    (r.fetched ≠ [] ↔ ∃ p ∈ (FileType.Load ft fs).1, p.2.commits = []) ∧
    ((∀ p ∈ (FileType.Load ft fs).1, p.2.commits ≠ []) → r.saved = false) := by
  rcases hL : FileType.Load ft fs with ⟨charts, err⟩
  cases err with
  | some e => simp [run, hL] at hrun
  | none =>
    rcases hfl : fetchLoop fetch charts with ⟨res, inv2⟩
    cases res with
    | error e => simp [run, hL, hfl] at hrun
    | ok charts2 =>
      simp only [run, hL, hfl] at hrun
      obtain ⟨hr, hinv⟩ := by simpa using hrun
      subst hinv
      have hfetched : r.fetched = (charts.filter fun p => p.2.commits.isEmpty).map Prod.fst := by
        rw [← hr]
        exact fetchLoop_ok_inv fetch charts charts2 inv2 (by rw [hfl])
      have hsaved : r.saved = !r.fetched.isEmpty := by rw [← hr]
      constructor
      · rw [hsaved]
        cases hf : r.fetched <;> simp [hf]
      constructor
      · rw [hfetched]
        simp only [ne_eq, List.map_eq_nil_iff, List.filter_eq_nil_iff]
        push_neg
        constructor
        · rintro ⟨p, hp, hemp⟩
          exact ⟨p, hp, by simpa using hemp⟩
        · rintro ⟨p, hp, hemp⟩
          exact ⟨p, hp, by simpa using hemp⟩
      · intro hall
        rw [hsaved]
        have : r.fetched = [] := by
          rw [hfetched]
          simp only [List.map_eq_nil_iff, List.filter_eq_nil_iff]
          intro p hp
          have := hall p hp
          simpa using this
        simp [this]

/-- Witness for C8: one entry needs a fetch, so `Save` is invoked; the
loaded store indeed has an entry with empty commits. -/
theorem C8_save_iff_fetch_witness :
    ({ store := [("u", ⟨"U", [42]⟩)], fetched := ["u"], saved := true } : RunResult).saved =
      true :=
  ((C8_save_iff_fetch [("u", ⟨"U", []⟩)] .absent (fun _ => .ok [42])
      { store := [("u", ⟨"U", [42]⟩)], fetched := ["u"], saved := true } ["u"] rfl).1).mpr
    (by simp)

/-! ## Aggregation lemmas -/

theorem foldl_max_init_le (l : List Nat) (a : Nat) : a ≤ l.foldl max a := by
  induction l generalizing a with
  | nil => simp
  | cons b rest ih => exact le_trans (le_max_left a b) (ih (max a b))

theorem foldl_max_le_of_mem (l : List Nat) (x : Nat) (hx : x ∈ l) :
    ∀ a, x ≤ l.foldl max a := by
  induction l with
  | nil => simp at hx
  | cons b rest ih =>
    intro a
    rcases List.mem_cons.mp hx with rfl | hx2
    · exact le_trans (le_max_right a x) (foldl_max_init_le rest (max a x))
    · exact ih hx2 (max a b)

theorem foldl_max_mem (l : List Nat) (a : Nat) : l.foldl max a = a ∨ l.foldl max a ∈ l := by
  induction l generalizing a with
  | nil => left; rfl
  | cons b rest ih =>
    rw [List.foldl_cons]
    rcases ih (max a b) with h | h
    · rcases max_choice a b with hm | hm
      · left; rw [h, hm]
      · right; rw [h, hm]; simp
    · right; exact List.mem_cons_of_mem _ h

theorem keptCommits_filter (now : Int) (commits : List Int) :
    keptCommits now (commits.filter fun t => decide (t ≤ now)) = keptCommits now commits := by
  unfold keptCommits
  rw [List.filter_filter]
  apply List.filter_congr
  intro t ht
  cases h1 : decide (¬ (now < t)) <;> cases h2 : decide (t ≤ now) <;> simp_all

/-! ## C4: future-timestamp exclusion -/

/-- C4: timestamps strictly after run time are excluded from every bucket
count and from the maximum (the aggregation and the maximum only depend on
the commits at or before run time), while every commit at or before run
time is counted in some emitted bucket. -/
theorem C4_future_exclusion (now : Int) (commits : List Int) :
    aggregate now commits = aggregate now (commits.filter fun t => decide (t ≤ now)) ∧
    maxY now commits = maxY now (commits.filter fun t => decide (t ≤ now)) ∧
    (∀ t ∈ commits, t ≤ now → ∃ n, (bucketKey t, n) ∈ aggregate now commits ∧ 0 < n) := by
  have hk := keptCommits_filter now commits
  refine ⟨by simp only [aggregate, aggCount, hk], by simp only [maxY, aggregate, aggCount, hk],
    fun t ht hle => ?_⟩
  have hkept : t ∈ keptCommits now commits :=
    List.mem_filter.mpr ⟨ht, by simpa using not_lt.mpr hle⟩
  have hmap : bucketKey t ∈ (keptCommits now commits).map bucketKey :=
    List.mem_map.mpr ⟨t, hkept, rfl⟩
  have hsorted : bucketKey t ∈
      List.insertionSort (· ≤ ·) ((keptCommits now commits).map bucketKey).dedup :=
    (List.mem_insertionSort _).mpr (List.mem_dedup.mpr hmap)
  refine ⟨aggCount now commits (bucketKey t), List.mem_map.mpr ⟨bucketKey t, hsorted, rfl⟩, ?_⟩
  exact List.count_pos_iff.mpr hmap

/-- Witness for C4: with run time 100, the commit at 50 is counted (the
future commit at 200 is not needed for this bucket to appear). -/
theorem C4_future_exclusion_witness :
    ∃ n, (bucketKey 50, n) ∈ aggregate 100 [50, 200] ∧ 0 < n :=
  (C4_future_exclusion 100 [50, 200]).2.2 50 (by simp) (by norm_num)

/-! ## C6: aggregation output -/

/-- C6: the aggregator emits (bucket-start, count) pairs strictly ascending
by bucket-start, each count being the number of non-future commits whose
bucket key is that bucket-start (never zero, so empty buckets are not
materialized); the maximum dominates every emitted count and is attained
by one of them; and the spec's concrete scenario evaluates as amended by
the bucket arithmetic: commits at `{0, 86400, 604800, 604800+3600}` with a
far-future run time give buckets `{0: 2, 604800: 2}` and maximum 2. -/
theorem C6_aggregate_output (now : Int) (commits : List Int) :
    List.Pairwise (fun p q : Int × Nat => p.1 < q.1) (aggregate now commits) ∧
    (∀ p ∈ aggregate now commits,
      p.2 = ((keptCommits now commits).map bucketKey).count p.1 ∧ 0 < p.2) ∧
    (∀ p ∈ aggregate now commits, p.2 ≤ maxY now commits) ∧
    (aggregate now commits ≠ [] →
      ∃ p ∈ aggregate now commits, p.2 = maxY now commits) ∧
    aggregate 10000000000 [0, 86400, 604800, 604800 + 3600] = [(0, 2), (604800, 2)] ∧
    maxY 10000000000 [0, 86400, 604800, 604800 + 3600] = 2 := by
  have hsorted : (List.insertionSort (· ≤ ·)
      ((keptCommits now commits).map bucketKey).dedup).Sorted (· ≤ ·) :=
    List.sorted_insertionSort _ _
  have hnodup : (List.insertionSort (· ≤ ·)
      ((keptCommits now commits).map bucketKey).dedup).Nodup :=
    (List.perm_insertionSort _ _).nodup_iff.mpr (List.nodup_dedup _)
  have hlt := hsorted.lt_of_le hnodup
  have hcount : ∀ p ∈ aggregate now commits,
      p.2 = ((keptCommits now commits).map bucketKey).count p.1 ∧ 0 < p.2 := by
    intro p hp
    obtain ⟨b, hb, rfl⟩ := List.mem_map.mp hp
    refine ⟨rfl, ?_⟩
    have hbmem : b ∈ (keptCommits now commits).map bucketKey :=
      List.mem_dedup.mp ((List.mem_insertionSort _).mp hb)
    exact List.count_pos_iff.mpr hbmem
  refine ⟨?_, hcount, ?_, ?_, by decide, by decide⟩
  · exact List.pairwise_map.mpr hlt
  · intro p hp
    exact foldl_max_le_of_mem _ _ (List.mem_map.mpr ⟨p, hp, rfl⟩) 0
  · intro hne
    rcases foldl_max_mem ((aggregate now commits).map Prod.snd) 0 with h0 | hmem
    · exfalso
      obtain ⟨p, hp⟩ := List.exists_mem_of_ne_nil _ hne
      have h1 := (hcount p hp).2
      have h2 := foldl_max_le_of_mem ((aggregate now commits).map Prod.snd) p.2
        (List.mem_map.mpr ⟨p, hp, rfl⟩) 0
      rw [h0] at h2
      omega
    · obtain ⟨p, hp, hval⟩ := List.mem_map.mp hmem
      exact ⟨p, hp, hval⟩

/-- Witness for C6: the first emitted bucket of the scenario has a
positive count equal to the number of kept commits in that bucket. -/
theorem C6_aggregate_output_witness :
    ((0 : Int), (2 : Nat)).2 =
      ((keptCommits 10000000000 [0, 86400, 604800, 604800 + 3600]).map bucketKey).count
        ((0 : Int), (2 : Nat)).1 ∧
    0 < ((0 : Int), (2 : Nat)).2 :=
  (C6_aggregate_output 10000000000 [0, 86400, 604800, 604800 + 3600]).2.1 (0, 2) (by decide)

/-! ## C5: axis tick generation -/

theorem ratTrunc_eq_floor (q : ℚ) (hq : 0 ≤ q) : ratTrunc q = ⌊q⌋ := by
  rw [Rat.floor_def, ratTrunc, Int.tdiv_eq_ediv (Rat.num_nonneg.mpr hq) (Int.natCast_nonneg _)]

/-- C5: for `min ≤ max` the tick generator produces exactly
`floor((max - min) / W)` ticks, tick `i` positioned at `min + i*W`, with a
visible label exactly when `i mod 13 = 0`; for `max = min` it produces no
ticks. -/
theorem C5_tick_generation (lo hi : ℚ) (hle : lo ≤ hi) :
    (ticker lo hi).length = (⌊(hi - lo) / (GroupSize : ℚ)⌋).toNat ∧
    (∀ (i : Nat) (h : i < (ticker lo hi).length),
      ((ticker lo hi).get ⟨i, h⟩).value = lo + (GroupSize : ℚ) * i ∧
      (((ticker lo hi).get ⟨i, h⟩).label ≠ "" ↔ i % 13 = 0)) ∧
    (hi = lo → ticker lo hi = []) := by
  have hW : (0 : ℚ) < (GroupSize : ℚ) := by norm_num [GroupSize]
  have hnn : 0 ≤ (hi - lo) / (GroupSize : ℚ) := div_nonneg (by linarith) (le_of_lt hW)
  have hcount : tickCount lo hi = ⌊(hi - lo) / (GroupSize : ℚ)⌋ :=
    ratTrunc_eq_floor _ hnn
  refine ⟨by simp only [ticker, List.length_map, List.length_range, hcount],
    fun i h => ?_, fun heq => ?_⟩
  · constructor
    · simp only [ticker, List.get_eq_getElem, List.getElem_map, List.getElem_range]
    · simp only [ticker, List.get_eq_getElem, List.getElem_map, List.getElem_range]
      by_cases h13 : i % 13 = 0
      · simp [h13]
      · simp [h13]
  · have h0 : tickCount lo hi = 0 := by
      rw [hcount, heq]
      simp
    simp [ticker, h0]

/-- Witness for C5: a two-week range starting at epoch zero yields exactly
`⌊2W/W⌋ = 2` ticks. -/
theorem C5_tick_generation_witness :
    (ticker 0 1209600).length = (⌊((1209600 : ℚ) - 0) / (GroupSize : ℚ)⌋).toNat ∧
    (ticker 0 1209600).length = 2 := by
  have h2 : ⌊((1209600 : ℚ) - 0) / (GroupSize : ℚ)⌋ = 2 := by norm_num [GroupSize]
  refine ⟨(C5_tick_generation 0 1209600 (by norm_num)).1, ?_⟩
  rw [(C5_tick_generation 0 1209600 (by norm_num)).1, h2]
  rfl
